import Mathlib

/-!
Verification development for the ad-ai-agent repository.

The definitions below are a shallow embedding of the core of the repository:
the tool-call parser (src/tools/parser.rs), the chat session controller
(rust_agent_cli/src/chat/session.rs together with the per-turn logic of
rust_agent_cli/src/main.rs), the RPC dispatch service
(rust_agent_core/src/tools/rpc/server.rs), the RPC client stub
(src/tools/rpc/client.rs) and one concrete tool implementation
(tools_server/src/main.rs).

JSON documents (serde_json::Value) are modelled by the inductive type Json.
Integer number tokens are represented exactly; a number token with a fraction
or exponent part is represented as a mantissa/decimal-exponent pair.  Byte
strings carrying JSON on the wire are modelled by the JSON tree itself, with
an undecodable payload modelled as Option.none.  Asynchronous execution,
network transport and file I/O are modelled by explicit environment
parameters; fallible operations return Except.
-/

namespace AdAgent

/-- Model of serde_json::Value.  `fnum m e` stands for the decimal number
m * 10 ^ e produced by a number token with a fraction or exponent part. -/
inductive Json where
  | null : Json
  | bool (b : Bool) : Json
  | num (n : Int) : Json
  | fnum (m : Int) (e : Int) : Json
  | str (s : String) : Json
  | arr (elems : List Json) : Json
  | obj (members : List (String × Json)) : Json

/-- serde_json::Value::get with a string key: a field lookup on objects, None on
every other variant.  Objects built by the parser below have unique keys, so
first-match lookup agrees with the map lookup of the original. -/
def Json.getField (j : Json) (key : String) : Option Json :=
  match j with
  | .obj members => (members.find? (fun m => m.1 == key)).map (fun m => m.2)
  | _ => none

/-- serde_json::Value::as_str. -/
def Json.asStr : Json → Option String
  | .str s => some s
  | _ => none

/-- serde_json::Value::as_bool. -/
def Json.asBool : Json → Option Bool
  | .bool b => some b
  | _ => none

/-! ### JSON text parsing (model of serde_json::from_str / from_slice)

The parser is executable and structurally recursive: string bodies recurse on
the input list, and the value grammar recurses on an explicit fuel argument
that is always initialised generously enough for the input length (every
recursive step first consumes at least one input character for every two fuel
units).  Unicode escapes for surrogate pairs and integers beyond i64/u64 are
not modelled. -/

/-- JSON insignificant whitespace. -/
def isJsonWs (c : Char) : Bool :=
  c = ' ' || c = '\t' || c = '\n' || c = '\r'

def skipWs (l : List Char) : List Char := l.dropWhile isJsonWs

def hexDigit? (c : Char) : Option Nat :=
  if '0' ≤ c ∧ c ≤ '9' then some (c.toNat - 48)
  else if 'a' ≤ c ∧ c ≤ 'f' then some (c.toNat - 87)
  else if 'A' ≤ c ∧ c ≤ 'F' then some (c.toNat - 55)
  else none

/-- Single-character JSON string escapes. -/
def escChar? : Char → Option Char
  | '"' => some '"'
  | '\\' => some '\\'
  | '/' => some '/'
  | 'b' => some (Char.ofNat 8)
  | 'f' => some (Char.ofNat 12)
  | 'n' => some '\n'
  | 'r' => some '\r'
  | 't' => some '\t'
  | _ => none

/-- Scans the body of a JSON string literal, after the opening quote.  Returns
the decoded characters and the input remaining after the closing quote. -/
def strBody : List Char → Option (List Char × List Char)
  | [] => none
  | '"' :: rest => some ([], rest)
  | '\\' :: 'u' :: h1 :: h2 :: h3 :: h4 :: rest =>
    (match hexDigit? h1, hexDigit? h2, hexDigit? h3, hexDigit? h4 with
      | some a, some b, some c, some d =>
        let n := ((a * 16 + b) * 16 + c) * 16 + d
        if n < 0xd800 ∨ 0xdfff < n then
          match strBody rest with
          | some (cs, rem) => some (Char.ofNat n :: cs, rem)
          | none => none
        else none
      | _, _, _, _ => none)
  | '\\' :: e :: rest =>
    (match escChar? e with
      | some c =>
        match strBody rest with
        | some (cs, rem) => some (c :: cs, rem)
        | none => none
      | none => none)
  | c :: rest =>
    if c.toNat < 0x20 then none
    else
      match strBody rest with
      | some (cs, rem) => some (c :: cs, rem)
      | none => none

def isDigitChar (c : Char) : Bool := '0' ≤ c && c ≤ '9'

def digitsToNat (ds : List Char) : Nat :=
  ds.foldl (fun acc c => acc * 10 + (c.toNat - 48)) 0

/-- Scans one JSON number token (int, optional fraction, optional exponent). -/
def parseNumber (l : List Char) : Option (Json × List Char) :=
  let (neg, l1) := match l with
    | '-' :: r => (true, r)
    | _ => (false, l)
  let intDs := l1.takeWhile isDigitChar
  let l2 := l1.dropWhile isDigitChar
  if intDs.isEmpty then none
  else if 1 < intDs.length && intDs.headD 'x' = '0' then none
  else
    let intVal : Int := Int.ofNat (digitsToNat intDs)
    let signed : Int := if neg then -intVal else intVal
    match l2 with
    | '.' :: r =>
      let fracDs := r.takeWhile isDigitChar
      let l3 := r.dropWhile isDigitChar
      if fracDs.isEmpty then none
      else
        let mant : Int :=
          (if neg then -1 else 1) * Int.ofNat (digitsToNat (intDs ++ fracDs))
        (match l3 with
          | 'e' :: r2 => parseExpTail mant (-(Int.ofNat fracDs.length)) r2
          | 'E' :: r2 => parseExpTail mant (-(Int.ofNat fracDs.length)) r2
          | _ => some (.fnum mant (-(Int.ofNat fracDs.length)), l3))
    | 'e' :: r2 => parseExpTail signed 0 r2
    | 'E' :: r2 => parseExpTail signed 0 r2
    | _ => some (.num signed, l2)
where
  /-- Scans the digits of an exponent part, after the e/E marker. -/
  parseExpTail (mant : Int) (base : Int) (l : List Char) : Option (Json × List Char) :=
    let (eneg, l1) := match l with
      | '-' :: r => (true, r)
      | '+' :: r => (false, r)
      | _ => (false, l)
    let expDs := l1.takeWhile isDigitChar
    let rest := l1.dropWhile isDigitChar
    if expDs.isEmpty then none
    else
      let e : Int := Int.ofNat (digitsToNat expDs)
      some (.fnum mant (base + (if eneg then -e else e)), rest)

/-- Inserts a member into an object under map semantics: a duplicate key
replaces the earlier value. -/
def insertMember (ms : List (String × Json)) (k : String) (v : Json) :
    List (String × Json) :=
  match ms with
  | [] => [(k, v)]
  | m :: rest => if m.1 == k then (k, v) :: rest else m :: insertMember rest k v

def buildObj (pairs : List (String × Json)) : List (String × Json) :=
  pairs.foldl (fun acc kv => insertMember acc kv.1 kv.2) []

/-- Intermediate results of the recursive-descent JSON grammar. -/
inductive JPiece where
  | val (j : Json)
  | elems (js : List Json)
  | membs (ms : List (String × Json))

/-- The JSON grammar.  mode 0 parses one value; mode 1 parses the elements of
an array (first element not yet consumed) up to and including the closing
bracket; mode 2 does the same for object members. -/
def jparse : Nat → Nat → List Char → Option (JPiece × List Char)
  | 0, _, _ => none
  | fuel + 1, 0, l =>
    (match skipWs l with
      | '{' :: r =>
        (match skipWs r with
          | '}' :: r2 => some (.val (.obj []), r2)
          | _ =>
            match jparse fuel 2 r with
            | some (.membs ms, rest) => some (.val (.obj (buildObj ms)), rest)
            | _ => none)
      | '[' :: r =>
        (match skipWs r with
          | ']' :: r2 => some (.val (.arr []), r2)
          | _ =>
            match jparse fuel 1 r with
            | some (.elems js, rest) => some (.val (.arr js), rest)
            | _ => none)
      | '"' :: r =>
        (match strBody r with
          | some (cs, rem) => some (.val (.str (String.mk cs)), rem)
          | none => none)
      | 't' :: 'r' :: 'u' :: 'e' :: r => some (.val (.bool true), r)
      | 'f' :: 'a' :: 'l' :: 's' :: 'e' :: r => some (.val (.bool false), r)
      | 'n' :: 'u' :: 'l' :: 'l' :: r => some (.val .null, r)
      | other =>
        match parseNumber other with
        | some (j, rest) => some (.val j, rest)
        | none => none)
  | fuel + 1, 1, l =>
    (match jparse fuel 0 l with
      | some (.val j, rest) =>
        (match skipWs rest with
          | ',' :: r2 =>
            (match jparse fuel 1 r2 with
              | some (.elems js, rem) => some (.elems (j :: js), rem)
              | _ => none)
          | ']' :: r2 => some (.elems [j], r2)
          | _ => none)
      | _ => none)
  | fuel + 1, _, l =>
    (match skipWs l with
      | '"' :: r =>
        (match strBody r with
          | some (key, rest) =>
            (match skipWs rest with
              | ':' :: r2 =>
                (match jparse fuel 0 r2 with
                  | some (.val v, rest2) =>
                    (match skipWs rest2 with
                      | ',' :: r3 =>
                        (match jparse fuel 2 r3 with
                          | some (.membs ms, rem) =>
                            some (.membs ((String.mk key, v) :: ms), rem)
                          | _ => none)
                      | '}' :: r3 => some (.membs [(String.mk key, v)], r3)
                      | _ => none)
                  | _ => none)
              | _ => none)
          | none => none)
      | _ => none)

/-- Model of serde_json::from_str::<Value>: one complete JSON document,
surrounded by optional whitespace only. -/
def jsonFromStr (s : String) : Option Json :=
  match jparse (3 * s.data.length + 8) 0 s.data with
  | some (.val j, rest) => if (skipWs rest).isEmpty then some j else none
  | _ => none

/-! ### The data model of tool invocations (rust_agent_core/src/tools/interface.rs) -/

/-- ToolParameters: the tool invocation request. -/
structure ToolParameters where
  name : String
  args : Json

/-- ToolResult: the tool invocation result. -/
structure ToolResult where
  success : Bool
  data : Json
  error : Option String

/-! ### The tool-call parser (src/tools/parser.rs) -/

/-- The \s character class of the regex crate and char::is_whitespace: the
Unicode White_Space set. -/
def isRustWs (c : Char) : Bool :=
  let n := c.toNat
  (9 ≤ n && n ≤ 13) || n = 32 || n = 0x85 || n = 0xa0 || n = 0x1680 ||
    (0x2000 ≤ n && n ≤ 0x200a) || n = 0x2028 || n = 0x2029 || n = 0x202f ||
    n = 0x205f || n = 0x3000

/-- str::trim of Rust: strips Unicode whitespace from both ends. -/
def rustTrim (s : String) : String :=
  String.mk (((s.data.dropWhile isRustWs).reverse.dropWhile isRustWs).reverse)

/-- The literal opening fence of an embedded tool call. -/
def fenceOpen : List Char := "```tool".data

/-- A newline followed by the closing fence. -/
def fenceClose : List Char := "\n```".data

def ticks3 : List Char := "```".data

/-- Splits a list at the first occurrence of pat: returns the part before the
occurrence and the part after it. -/
def splitFirst (pat : List Char) : List Char → Option (List Char × List Char)
  | [] => none
  | c :: cs =>
    if pat.isPrefixOf (c :: cs) then some ([], (c :: cs).drop pat.length)
    else
      match splitFirst pat cs with
      | some (pre, post) => some (c :: pre, post)
      | none => none

/-- The part of a list after its last newline. -/
def afterLastNl (w : List Char) : List Char :=
  (w.reverse.takeWhile (fun c => c != '\n')).reverse

/-- The part of a list before its last newline. -/
def beforeLastNl (w : List Char) : List Char :=
  ((w.reverse.dropWhile (fun c => c != '\n')).drop 1).reverse

/-- Matches the tail of the tool-call regex at a position directly after the
literal opening fence: a greedy whitespace run that must contain a newline,
the lazily captured block body, and the closing fence.  Backtracking over the
greedy run means the captured body starts after the last newline of the run
that still allows a closing fence to be found.  Returns the captured body and
the input remaining after the closing fence. -/
def matchAtOpening (l : List Char) : Option (List Char × List Char) :=
  let w := l.takeWhile isRustWs
  let r := l.dropWhile isRustWs
  if w.contains '\n' then
    match splitFirst fenceClose r with
    | some (pre, post) => some (afterLastNl w ++ pre, post)
    | none =>
      if (afterLastNl w).isEmpty && ticks3.isPrefixOf r then
        let a := beforeLastNl w
        if a.contains '\n' then some (afterLastNl a, r.drop 3) else none
      else none
  else none

/-- The scan of captures_iter: non-overlapping leftmost matches of the
tool-call regex, in document order.  Fuel bounds the iteration count; every
step consumes at least one character, so the initialisation below never runs
out. -/
def scanFuel : Nat → List Char → List (List Char)
  | 0, _ => []
  | _ + 1, [] => []
  | fuel + 1, c :: cs =>
    if fenceOpen.isPrefixOf (c :: cs) then
      match matchAtOpening ((c :: cs).drop 7) with
      | some (cap, rest) => cap :: scanFuel fuel rest
      | none => scanFuel fuel cs
    else scanFuel fuel cs

/-- The captured bodies of all embedded tool-call blocks, in document order. -/
def scanToolBlocks (l : List Char) : List (List Char) :=
  scanFuel (l.length + 1) l

/-- The colon-shorthand branch of parse_tool_content: split on the first
colon, trim both parts, decode the argument part as JSON when possible and
keep it as an opaque string otherwise. -/
def colonFallback (content : String) : Except String ToolParameters :=
  match splitFirst [':'] content.data with
  | some (pre, post) =>
    let name := rustTrim (String.mk pre)
    let argsStr := rustTrim (String.mk post)
    Except.ok { name := name, args := (jsonFromStr argsStr).getD (Json.str argsStr) }
  | none => Except.error "无法解析工具调用内容"

/-- parse_tool_content: first the JSON form (an object with a string name
field, args defaulting to the empty object), then the colon shorthand. -/
def parse_tool_content (content : String) : Except String ToolParameters :=
  match jsonFromStr content with
  | some jsonValue =>
    (match (jsonValue.getField "name").bind Json.asStr with
      | some name =>
        Except.ok { name := name, args := (jsonValue.getField "args").getD (Json.obj []) }
      | none => colonFallback content)
  | none => colonFallback content

/-- parse_tool_calls: scan the message for fenced blocks and keep those whose
content parses; malformed blocks are dropped individually. -/
def parse_tool_calls (ai_message : String) : List ToolParameters :=
  (scanToolBlocks ai_message.data).filterMap
    (fun cap => (parse_tool_content (String.mk cap)).toOption)

/-- The JSON-form reading of one captured block, as the claims describe it: a
JSON document carrying a string name field; args defaults to the empty
object when absent. -/
def jsonToolRequest (content : String) : Option ToolParameters :=
  match jsonFromStr content with
  | some j =>
    (match (j.getField "name").bind Json.asStr with
      | some name => some { name := name, args := (j.getField "args").getD (Json.obj []) }
      | none => none)
  | none => none

/-! ### Result formatting (format_tool_result of src/tools/parser.rs) -/

def escapeJsonChar (c : Char) : String :=
  if c = '"' then "\\\""
  else if c = '\\' then "\\\\"
  else if c = '\n' then "\\n"
  else if c = '\r' then "\\r"
  else if c = '\t' then "\\t"
  else if c.toNat = 8 then "\\b"
  else if c.toNat = 12 then "\\f"
  else if c.toNat < 0x20 then
    "\\u00" ++ String.mk [hexChar (c.toNat / 16), hexChar (c.toNat % 16)]
  else String.singleton c
where
  hexChar (n : Nat) : Char := if n < 10 then Char.ofNat (48 + n) else Char.ofNat (87 + n)

def escapeJsonString (s : String) : String :=
  "\"" ++ String.join (s.data.map escapeJsonChar) ++ "\""

def indentSpaces (n : Nat) : String := String.mk (List.replicate (2 * n) ' ')

/-- Model of serde_json::to_string_pretty (two-space indentation).  The
decimal rendering of fnum differs from the float formatting of the original,
which no claim depends on. -/
def prettyVal (d : Nat) : Json → String
  | .null => "null"
  | .bool b => if b then "true" else "false"
  | .num n => toString n
  | .fnum m e => toString m ++ "e" ++ toString e
  | .str s => escapeJsonString s
  | .arr [] => "[]"
  | .arr (x :: xs) =>
    "[\n" ++
      String.intercalate ",\n"
        ((x :: xs).attach.map (fun el => indentSpaces (d + 1) ++ prettyVal (d + 1) el.1)) ++
      "\n" ++ indentSpaces d ++ "]"
  | .obj [] => "\x7b\x7d"
  | .obj (m :: ms) =>
    "\x7b\n" ++
      String.intercalate ",\n"
        ((m :: ms).attach.map (fun mb =>
          indentSpaces (d + 1) ++ escapeJsonString mb.1.1 ++ ": " ++ prettyVal (d + 1) mb.1.2)) ++
      "\n" ++ indentSpaces d ++ "\x7d"
termination_by j => sizeOf j
decreasing_by
  · have := List.sizeOf_lt_of_mem el.2
    simp only [Json.arr.sizeOf_spec]
    omega
  · have h1 := List.sizeOf_lt_of_mem mb.2
    have h2 : sizeOf mb.1.2 < sizeOf mb.1 := by
      obtain ⟨a, b⟩ := mb.1
      simp
    simp only [Json.obj.sizeOf_spec]
    omega

def to_string_pretty (j : Json) : String := prettyVal 0 j

/-- format_tool_result: renders one tool result as text. -/
def format_tool_result (tool_name : String) (result : ToolResult) : String :=
  let output := "工具 `" ++ tool_name ++ "` 执行"
  if result.success then
    let formatted_data :=
      match result.data with
      | .str s => s
      | d => to_string_pretty d
    output ++ "成功：\n\n" ++ formatted_data
  else
    match result.error with
    | some error => output ++ "失败：\n\n" ++ error
    | none => output ++ "失败：\n\n" ++ "未知错误"

/-! ### The dispatch service (rust_agent_core/src/tools/rpc/server.rs)

A registered tool is its name, its description and its execute function; the
asynchronous anyhow::Result of execute is modelled by Except with the error
rendered to its message string.  The registry is the ordered list of
registered tools. -/

/-- One registered tool behind the Tool trait object. -/
structure ToolImpl where
  name : String
  description : String
  execute : ToolParameters → Except String ToolResult

/-- register_tool appends to the registry; no deduplication. -/
def register_tool (tools : List ToolImpl) (tool : ToolImpl) : List ToolImpl :=
  tools ++ [tool]

/-- tonic::Status codes used by the service. -/
inductive StatusCode where
  | invalidArgument : StatusCode
  | notFound : StatusCode
  | internalError : StatusCode
  | unimplemented : StatusCode
deriving DecidableEq

structure Status where
  code : StatusCode
  message : String
deriving DecidableEq

/-- An arrow_flight Action: the action tag and the request payload.  The
payload bytes are modelled by the JSON document they hold; a byte payload
that is not valid JSON is modelled by none. -/
structure Action where
  type : String
  body : Option Json

/-- One arrow_flight reply record; its body bytes are modelled by the JSON
document they hold. -/
structure FlightResult where
  body : Json

/-- Deserialization of ToolParameters via its serde derive: an object with a
string name field and an args field holding any value. -/
def ToolParameters.fromJson? (j : Json) : Option ToolParameters :=
  match (j.getField "name").bind Json.asStr, j.getField "args" with
  | some n, some a => some { name := n, args := a }
  | _, _ => none

/-- Serialization of ToolParameters via its serde derive, in field order. -/
def ToolParameters.toJson (p : ToolParameters) : Json :=
  .obj [("name", .str p.name), ("args", p.args)]

/-- Serialization of ToolResult via its serde derive, in field order. -/
def ToolResult.toJson (r : ToolResult) : Json :=
  .obj [("success", .bool r.success), ("data", r.data),
        ("error", match r.error with | some e => .str e | none => .null)]

/-- The dynamic serde error message produced when the dispatch payload fails
to decode is abstracted by this fixed text. -/
def payloadDecodeError : String := "invalid tool invocation payload"

/-- do_action: the dispatch entry point of ToolsFlightService.  Validates the
action tag, decodes the payload, looks up the first matching tool and runs
it; a successful ToolResult is the single reply record, and an error escaping
execute becomes an internal fault. -/
def do_action (tools : List ToolImpl) (action : Action) :
    Except Status (List FlightResult) :=
  if action.type ≠ "execute" then
    Except.error { code := .invalidArgument, message := "Unsupported action type" }
  else
    match action.body.bind ToolParameters.fromJson? with
    | none => Except.error { code := .invalidArgument, message := payloadDecodeError }
    | some params =>
      match tools.find? (fun t => t.name == params.name) with
      | none => Except.error { code := .notFound, message := "Tool not found" }
      | some tool =>
        match tool.execute params with
        | .error e => Except.error { code := .internalError, message := e }
        | .ok result => Except.ok [{ body := ToolResult.toJson result }]

/-! ### The client stub (src/tools/rpc/client.rs) -/

/-- The Action built by ToolsClient::execute_tool: the execute tag and the
serialized request as payload. -/
def clientExecuteAction (params : ToolParameters) : Action :=
  { type := "execute", body := some (ToolParameters.toJson params) }

/-! ### FileAnalyzerTool (tools_server/src/main.rs) -/

/-- The parameter struct of the file analyzer; both fields are required. -/
structure FileAnalyzerParams where
  path : String
  recursive : Bool

/-- Deserialization of FileAnalyzerParams via its serde derive. -/
def FileAnalyzerParams.fromJson? (j : Json) : Option FileAnalyzerParams :=
  match (j.getField "path").bind Json.asStr, (j.getField "recursive").bind Json.asBool with
  | some p, some r => some { path := p, recursive := r }
  | _, _ => none

/-- The dynamic serde error message produced when the args of the file
analyzer fail to decode is abstracted by this fixed text. -/
def fileAnalyzerDecodeError : String := "invalid args for FileAnalyzerParams"

/-- FileAnalyzerTool::execute.  The directory walk performs file I/O and is
taken as an environment parameter mapping the path and recursive flag to the
serialized analysis or an error message.  The question-mark operator on the
args decode is translated literally: a decode failure returns an error
instead of a success := false result. -/
def fileAnalyzerExecute (analyze_directory : String → Bool → Except String Json)
    (params : ToolParameters) : Except String ToolResult :=
  match FileAnalyzerParams.fromJson? params.args with
  | none => Except.error fileAnalyzerDecodeError
  | some p =>
    match analyze_directory p.path p.recursive with
    | .ok analysis => Except.ok { success := true, data := analysis, error := none }
    | .error e => Except.ok { success := false, data := .null, error := some e }

/-- The registered file analyzer tool, over a given directory-walk
environment. -/
def fileAnalyzerTool (analyze_directory : String → Bool → Except String Json) : ToolImpl :=
  { name := "file_analyzer",
    description := "分析指定目录下的文件信息，包括大小、类型统计等",
    execute := fileAnalyzerExecute analyze_directory }

/-! ### The chat session controller (rust_agent_cli/src/chat/session.rs and
the per-turn logic of rust_agent_cli/src/main.rs)

The streaming completion source is modelled by its observable behaviour: the
chat_stream call either fails at creation or yields a finite sequence of
chunk results, each an incremental text fragment or a stream error.  The sink
callback is modelled by recording, in order, every string it is invoked
with.  The attached tools client is modelled by the function a call to
ToolsClient::execute_tool denotes. -/

structure ChatMessage where
  role : String
  content : String
deriving DecidableEq

/-- The environment of one get_response_stream call. -/
structure StreamEnv where
  chunks : Except String (List (Except String String))

/-- The streaming loop: invokes the sink for every non-empty fragment and
accumulates the full response, stopping at the first chunk error.  Returns
the sink invocations in order and the error that aborted the loop, if any. -/
def consumeStream : List (Except String String) → List String × Option String
  | [] => ([], none)
  | Except.ok content :: rest =>
    let (fs, e) := consumeStream rest
    if content = "" then (fs, e) else (content :: fs, e)
  | Except.error e :: _ => ([], some e)

/-- ChatSession::execute_tool: delegates to the attached client, or fails
when none is attached. -/
def execute_tool (tools_client : Option (ToolParameters → Except String ToolResult))
    (params : ToolParameters) : Except String ToolResult :=
  match tools_client with
  | some client => client params
  | none => Except.error "工具客户端未初始化"

/-- One executed tool call and its outcome, recorded in execution order. -/
structure ToolEvent where
  params : ToolParameters
  outcome : Except String ToolResult

/-- The observable effects of the tool-execution loop of
get_response_stream: the executed calls in order, the sink invocations it
makes, and the text it appends to the returned content. -/
structure ToolPhase where
  events : List ToolEvent
  callbackFrags : List String
  appended : String

/-- The tool-execution loop: every parsed call is executed in order; a
failure is rendered as inline error text and never stops the loop. -/
def runToolCalls (exec : ToolParameters → Except String ToolResult) :
    List ToolParameters → ToolPhase
  | [] => { events := [], callbackFrags := [], appended := "" }
  | tool_params :: rest =>
    let tool_name := tool_params.name
    let progress := "\n执行工具 `" ++ tool_name ++ "`...\n"
    match exec tool_params with
    | .ok result =>
      let result_text := format_tool_result tool_name result
      let tail := runToolCalls exec rest
      { events := { params := tool_params, outcome := .ok result } :: tail.events,
        callbackFrags := progress :: "\n\n" :: result_text :: tail.callbackFrags,
        appended := "\n\n" ++ result_text ++ tail.appended }
    | .error e =>
      let error_text := "工具 `" ++ tool_name ++ "` 执行失败: " ++ e
      let tail := runToolCalls exec rest
      { events := { params := tool_params, outcome := .error e } :: tail.events,
        callbackFrags := progress :: "\n\n" :: error_text :: tail.callbackFrags,
        appended := "\n\n" ++ error_text ++ tail.appended }

/-- The observable outcome of one get_response_stream call: every sink
invocation in order, the executed tool calls in order, and the returned
value. -/
structure TurnOutput where
  callbacks : List String
  toolEvents : List ToolEvent
  result : Except String String

/-- ChatSession::get_response_stream: streams the completion, assembles the
full response, then scans it once for tool calls and executes them when a
tools client is attached. -/
def get_response_stream
    (tools_client : Option (ToolParameters → Except String ToolResult))
    (env : StreamEnv) : TurnOutput :=
  match env.chunks with
  | .error e => { callbacks := [], toolEvents := [], result := .error e }
  | .ok chunks =>
    match consumeStream chunks with
    | (frags, some e) => { callbacks := frags, toolEvents := [], result := .error e }
    | (frags, none) =>
      let full_response := String.join frags
      let tool_calls := parse_tool_calls full_response
      if !tool_calls.isEmpty && tools_client.isSome then
        let phase := runToolCalls (execute_tool tools_client) tool_calls
        { callbacks := frags ++ phase.callbackFrags,
          toolEvents := phase.events,
          result := .ok (full_response ++ phase.appended) }
      else
        { callbacks := frags, toolEvents := [], result := .ok full_response }

def add_user_message (messages : List ChatMessage) (content : String) :
    List ChatMessage :=
  messages ++ [{ role := "user", content := content }]

def add_assistant_message (messages : List ChatMessage) (content : String) :
    List ChatMessage :=
  messages ++ [{ role := "assistant", content := content }]

def add_system_message (messages : List ChatMessage) (content : String) :
    List ChatMessage :=
  messages ++ [{ role := "system", content := content }]

/-- Vec::pop: removes the most recently appended message. -/
def remove_last_message (messages : List ChatMessage) : List ChatMessage :=
  messages.dropLast

/-- One iteration of the REPL loop of rust_agent_cli/src/main.rs: append the
user message, run the turn, then either record the assistant response or
roll the user message back and surface the error. -/
def chat_turn (tools_client : Option (ToolParameters → Except String ToolResult))
    (messages : List ChatMessage) (user_input : String) (env : StreamEnv) :
    List ChatMessage × Except String String :=
  let messages1 := add_user_message messages user_input
  match (get_response_stream tools_client env).result with
  | .ok response => (add_assistant_message messages1 response, .ok response)
  | .error e => (remove_last_message messages1, .error e)

/-- The fragments a chunk list delivers to the sink: the non-empty payloads
of successful chunks, in order. -/
def okNonempty : Except String String → Option String
  | .ok s => if s = "" then none else some s
  | .error _ => none

/-! ### Helper lemmas -/

theorem dropLast_append_singleton {α : Type} (l : List α) (a : α) :
    (l ++ [a]).dropLast = l := by
  induction l with
  | nil => rfl
  | cons x xs ih =>
    cases xs with
    | nil => rfl
    | cons y ys => simp [List.dropLast, ih]

theorem consumeStream_fragments (chunks : List (Except String String))
    (hok : (consumeStream chunks).2 = none) :
    (consumeStream chunks).1 = chunks.filterMap okNonempty := by
  induction chunks with
  | nil => rfl
  | cons c rest ih =>
    cases c with
    | ok s =>
      by_cases hs : s = "" <;>
        simp only [consumeStream, hs, if_pos, if_neg, okNonempty, List.filterMap_cons,
          reduceIte] at hok ⊢ <;>
        simp [ih hok]
    | error e => simp [consumeStream] at hok

theorem runToolCalls_events_params (exec : ToolParameters → Except String ToolResult)
    (calls : List ToolParameters) :
    (runToolCalls exec calls).events.map (fun ev => ev.params) = calls := by
  induction calls with
  | nil => rfl
  | cons p rest ih =>
    simp only [runToolCalls]
    cases exec p <;> simp [ih]

theorem runToolCalls_error_appended (exec : ToolParameters → Except String ToolResult)
    (calls : List ToolParameters) (p : ToolParameters) (e : String)
    (hmem : ToolEvent.mk p (Except.error e) ∈ (runToolCalls exec calls).events) :
    ∃ pre post, (runToolCalls exec calls).appended.data =
      pre ++ ("工具 `" ++ p.name ++ "` 执行失败: " ++ e).data ++ post := by
  induction calls with
  | nil => simp [runToolCalls] at hmem
  | cons q rest ih =>
    simp only [runToolCalls] at hmem ⊢
    cases hq : exec q with
    | ok r =>
      rw [hq] at hmem
      simp only [List.mem_cons] at hmem
      rcases hmem with heq | hmem
      · cases heq
      · obtain ⟨pre, post, hdec⟩ := ih hmem
        refine ⟨("\n\n" ++ format_tool_result q.name r).data ++ pre, post, ?_⟩
        simp [hdec, String.data_append]
    | error e2 =>
      rw [hq] at hmem
      simp only [List.mem_cons] at hmem
      rcases hmem with heq | hmem
      · rw [ToolEvent.mk.injEq] at heq
        obtain ⟨rfl, he⟩ := heq
        obtain rfl : e = e2 := by injection he
        refine ⟨"\n\n".data, (runToolCalls exec rest).appended.data, ?_⟩
        simp [String.data_append]
      · obtain ⟨pre, post, hdec⟩ := ih hmem
        refine ⟨("\n\n" ++ ("工具 `" ++ q.name ++ "` 执行失败: " ++ e2)).data ++ pre, post, ?_⟩
        simp [hdec, String.data_append]

theorem find?_name_split (tools : List ToolImpl) (nm : String) (tool : ToolImpl)
    (h : tools.find? (fun t => t.name == nm) = some tool) :
    ∃ pre post, tools = pre ++ tool :: post ∧ tool.name = nm ∧
      ∀ u ∈ pre, u.name ≠ nm := by
  induction tools with
  | nil => simp at h
  | cons t rest ih =>
    by_cases hb : (t.name == nm) = true
    · simp only [List.find?, hb] at h
      obtain rfl : t = tool := by injection h
      exact ⟨[], rest, rfl, eq_of_beq hb, by simp⟩
    · have hb' : (t.name == nm) = false := by simpa using hb
      simp only [List.find?, hb'] at h
      obtain ⟨pre, post, hsp, hname, hpre⟩ := ih h
      refine ⟨t :: pre, post, by simp [hsp], hname, ?_⟩
      intro u hu
      rcases List.mem_cons.mp hu with rfl | hu
      · exact fun heq => hb (by simp [heq])
      · exact hpre u hu

theorem parse_tool_content_of_request (content : String) (p : ToolParameters)
    (h : jsonToolRequest content = some p) :
    parse_tool_content content = Except.ok p := by
  cases hj : jsonFromStr content with
  | none => simp [jsonToolRequest, hj] at h
  | some j =>
    cases hn : (j.getField "name").bind Json.asStr with
    | none => simp [jsonToolRequest, hj, hn] at h
    | some name =>
      simp only [jsonToolRequest, hj, hn, Option.some.injEq] at h
      simp only [parse_tool_content, hj, hn, h]

theorem parse_tool_content_of_no_request (content : String)
    (h : jsonToolRequest content = none) :
    parse_tool_content content = colonFallback content := by
  cases hj : jsonFromStr content with
  | none => simp only [parse_tool_content, hj]
  | some j =>
    cases hn : (j.getField "name").bind Json.asStr with
    | none => simp only [parse_tool_content, hj, hn]
    | some name => simp [jsonToolRequest, hj, hn] at h

theorem splitFirst_colon_of_decomp (b a : List Char) (hb : ':' ∉ b) :
    splitFirst [':'] (b ++ ':' :: a) = some (b, a) := by
  induction b with
  | nil =>
    have hpos : ([':'].isPrefixOf (':' :: a)) = true := by
      show ((':' == ':') && ([] : List Char).isPrefixOf a) = true
      rw [List.isPrefixOf_nil_left]
      rfl
    show splitFirst [':'] (':' :: a) = some ([], a)
    rw [splitFirst, if_pos hpos]
    rfl
  | cons c cs ih =>
    simp only [List.mem_cons, not_or] at hb
    have hc : (':' == c) = false := beq_eq_false_iff_ne.mpr (Ne.symm (fun h => hb.1 h.symm))
    have hpref : ([':'].isPrefixOf (c :: (cs ++ ':' :: a))) = false := by
      show ((':' == c) && ([] : List Char).isPrefixOf (cs ++ ':' :: a)) = false
      rw [hc, Bool.false_and]
    show splitFirst [':'] (c :: (cs ++ ':' :: a)) = some (c :: cs, a)
    rw [splitFirst, if_neg (by simp [hpref]), ih hb.2]

theorem splitFirst_colon_none (l : List Char) (hl : ':' ∉ l) :
    splitFirst [':'] l = none := by
  induction l with
  | nil => rfl
  | cons c cs ih =>
    simp only [List.mem_cons, not_or] at hl
    have hc : (':' == c) = false := beq_eq_false_iff_ne.mpr (Ne.symm (fun h => hl.1 h.symm))
    have hpref : ([':'].isPrefixOf (c :: cs)) = false := by
      show ((':' == c) && ([] : List Char).isPrefixOf cs) = false
      rw [hc, Bool.false_and]
    rw [splitFirst, if_neg (by simp [hpref]), ih hl.2]

theorem not_mem_of_splitFirst_colon_none (l : List Char)
    (h : splitFirst [':'] l = none) : ':' ∉ l := by
  induction l with
  | nil => simp
  | cons c cs ih =>
    by_cases hc : c = ':'
    · subst hc
      have hpos : ([':'].isPrefixOf (':' :: cs)) = true := by
        show ((':' == ':') && ([] : List Char).isPrefixOf cs) = true
        rw [List.isPrefixOf_nil_left]
        rfl
      rw [splitFirst, if_pos hpos] at h
      simp at h
    · have hpref : ([':'].isPrefixOf (c :: cs)) = false := by
        show ((':' == c) && ([] : List Char).isPrefixOf cs) = false
        rw [beq_eq_false_iff_ne.mpr (Ne.symm hc), Bool.false_and]
      rw [splitFirst, if_neg (by simp [hpref])] at h
      cases hs : splitFirst [':'] cs with
      | some pr => rw [hs] at h; obtain ⟨b2, a2⟩ := pr; simp at h
      | none =>
        intro hmem
        rcases List.mem_cons.mp hmem with h1 | h2
        · exact hc h1.symm
        · exact ih hs h2

/-! ### Claim theorems -/

/-- C8: serializing a ToolInvocationRequest in the client's execute_tool and
decoding that payload in the service's do_action yields a request with the
same name and the same args. -/
theorem tool_request_wire_roundtrip (params : ToolParameters) :
    (clientExecuteAction params).body.bind ToolParameters.fromJson? = some params ∧
    ((clientExecuteAction params).body.bind ToolParameters.fromJson?).map
        (fun q => (q.name, q.args)) = some (params.name, params.args) := by
  obtain ⟨n, a⟩ := params
  exact ⟨rfl, rfl⟩

/-- C3: when the completion call fails, the turn aborts: the pending user
message is rolled back via remove_last_message, no assistant message is
recorded, the error is surfaced to the caller, and the history after the
turn equals the history from before the user message was added. -/
theorem failed_turn_rolls_back
    (tools_client : Option (ToolParameters → Except String ToolResult))
    (messages : List ChatMessage) (user_input : String) (env : StreamEnv) (e : String)
    (hfail : (get_response_stream tools_client env).result = Except.error e) :
    (chat_turn tools_client messages user_input env).1 = messages ∧
    (chat_turn tools_client messages user_input env).2 = Except.error e ∧
    (chat_turn tools_client messages user_input env).1 =
      remove_last_message (add_user_message messages user_input) := by
  unfold chat_turn
  rw [hfail]
  refine ⟨?_, rfl, rfl⟩
  exact dropLast_append_singleton messages _

/-- C3 witness: a concrete turn whose completion call fails leaves the
history unchanged and surfaces the error. -/
theorem failed_turn_rolls_back_witness :
    (chat_turn none [{ role := "system", content := "s" }] "hi"
        { chunks := Except.error "connection error" }).1 =
      [{ role := "system", content := "s" }] ∧
    (chat_turn none [{ role := "system", content := "s" }] "hi"
        { chunks := Except.error "connection error" }).2 =
      Except.error "connection error" := by
  have h := failed_turn_rolls_back none [{ role := "system", content := "s" }] "hi"
    { chunks := Except.error "connection error" } "connection error" rfl
  exact ⟨h.1, h.2.1⟩

/-- C9 counterexample: when no error message is present the rendered
placeholder is the fixed text 未知错误; the output does not contain the text
unknown error anywhere. -/
theorem format_tool_result_placeholder_counterexample :
    format_tool_result "t" { success := false, data := Json.null, error := none } =
      "工具 `t` 执行失败：\n\n未知错误" ∧
    ¬ "unknown error".data <:+:
        (format_tool_result "t" { success := false, data := Json.null, error := none }).data := by
  refine ⟨rfl, ?_⟩
  decide

/-- C9 (amended): format_tool_result is a pure function of tool name and
result: on success it renders string data directly and pretty-prints any
other data; on failure it renders the carried error message, or the fixed
placeholder 未知错误 (unknown error) when none is present. -/
theorem format_tool_result_branches (tool_name : String) (result : ToolResult) :
    (result.success = true → ∀ s, result.data = Json.str s →
        format_tool_result tool_name result =
          "工具 `" ++ tool_name ++ "` 执行" ++ "成功：\n\n" ++ s) ∧
    (result.success = true → (∀ s, result.data ≠ Json.str s) →
        format_tool_result tool_name result =
          "工具 `" ++ tool_name ++ "` 执行" ++ "成功：\n\n" ++ to_string_pretty result.data) ∧
    (result.success = false → ∀ e, result.error = some e →
        format_tool_result tool_name result =
          "工具 `" ++ tool_name ++ "` 执行" ++ "失败：\n\n" ++ e) ∧
    (result.success = false → result.error = none →
        format_tool_result tool_name result =
          "工具 `" ++ tool_name ++ "` 执行" ++ "失败：\n\n" ++ "未知错误") := by
  obtain ⟨succ, data, err⟩ := result
  refine ⟨?_, ?_, ?_, ?_⟩
  · rintro rfl s rfl
    rfl
  · rintro rfl hne
    cases data with
    | str s => exact absurd rfl (hne s)
    | null => rfl
    | bool b => rfl
    | num n => rfl
    | fnum m e => rfl
    | arr xs => rfl
    | obj ms => rfl
  · rintro rfl e rfl
    rfl
  · rintro rfl rfl
    rfl

/-- C9 witness: the failure branch with a carried error message, evaluated
at concrete inputs. -/
theorem format_tool_result_branches_witness :
    format_tool_result "t" { success := false, data := Json.null, error := some "err" } =
      "工具 `" ++ "t" ++ "` 执行" ++ "失败：\n\n" ++ "err" :=
  (format_tool_result_branches "t"
    { success := false, data := Json.null, error := some "err" }).2.2.1 rfl "err" rfl

/-- C6 (code bug): FileAnalyzerTool::execute propagates an args-decode
failure with the question-mark operator instead of converting it into a
success := false result, for every directory-walk environment; at dispatch
the escaped error becomes an internal-error protocol fault. -/
theorem file_analyzer_decode_failure_escapes
    (analyze_directory : String → Bool → Except String Json) :
    fileAnalyzerExecute analyze_directory
        { name := "file_analyzer", args := Json.obj [] } =
      Except.error fileAnalyzerDecodeError ∧
    do_action [fileAnalyzerTool analyze_directory]
        (clientExecuteAction { name := "file_analyzer", args := Json.obj [] }) =
      Except.error { code := StatusCode.internalError, message := fileAnalyzerDecodeError } :=
  ⟨rfl, rfl⟩

/-- C5 counterexample: an empty fragment received from the completion stream
does not trigger a sink invocation, so the sink is not invoked once per
received fragment. -/
theorem sink_skips_empty_fragment_counterexample :
    (get_response_stream none
        { chunks := Except.ok [Except.ok ""] }).callbacks.length ≠
      ([Except.ok ""] : List (Except String String)).length := by
  decide

/-- C5 (amended): the sink is invoked once per non-empty fragment, in arrival
order with no reordering and no deduplication (empty fragments are skipped),
and the concatenation of the fragments passed to the sink before any tool
execution is exactly the assembled response text that is scanned for
tool-call blocks. -/
theorem sink_invoked_per_nonempty_fragment
    (tools_client : Option (ToolParameters → Except String ToolResult))
    (env : StreamEnv) (chunks : List (Except String String))
    (henv : env.chunks = Except.ok chunks)
    (hok : (consumeStream chunks).2 = none) :
    (consumeStream chunks).1 = chunks.filterMap okNonempty ∧
    (∃ toolFrags, (get_response_stream tools_client env).callbacks =
        chunks.filterMap okNonempty ++ toolFrags) ∧
    ((get_response_stream tools_client env).result =
        Except.ok (String.join (chunks.filterMap okNonempty)) ∨
      (get_response_stream tools_client env).result =
        Except.ok (String.join (chunks.filterMap okNonempty) ++
          (runToolCalls (execute_tool tools_client)
            (parse_tool_calls (String.join (chunks.filterMap okNonempty)))).appended)) := by
  have hfr := consumeStream_fragments chunks hok
  have hceq : consumeStream chunks = ((consumeStream chunks).1, none) := by
    rw [← hok]
  refine ⟨hfr, ?_⟩
  simp only [get_response_stream, henv]
  rw [hceq, hfr]
  by_cases hcalls : (parse_tool_calls (String.join (chunks.filterMap okNonempty))).isEmpty
  · refine ⟨⟨[], ?_⟩, Or.inl ?_⟩ <;> simp [hcalls]
  · cases tools_client with
    | none => refine ⟨⟨[], ?_⟩, Or.inl ?_⟩ <;> simp [hcalls]
    | some exec =>
      refine ⟨⟨(runToolCalls (execute_tool (some exec))
        (parse_tool_calls (String.join (chunks.filterMap okNonempty)))).callbackFrags, ?_⟩,
        Or.inr ?_⟩ <;> simp [hcalls]

/-- C5 witness: a concrete chunk list with an empty and a duplicated
fragment. -/
theorem sink_invoked_per_nonempty_fragment_witness :
    (consumeStream [Except.ok "a", Except.ok "", Except.ok "a"]).1 =
      ([Except.ok "a", Except.ok "", Except.ok "a"] :
          List (Except String String)).filterMap okNonempty ∧
    (∃ toolFrags,
      (get_response_stream none
          { chunks := Except.ok [Except.ok "a", Except.ok "", Except.ok "a"] }).callbacks =
        ([Except.ok "a", Except.ok "", Except.ok "a"] :
            List (Except String String)).filterMap okNonempty ++ toolFrags) := by
  have h := sink_invoked_per_nonempty_fragment none
    { chunks := Except.ok [Except.ok "a", Except.ok "", Except.ok "a"] }
    [Except.ok "a", Except.ok "", Except.ok "a"] rfl rfl
  exact ⟨h.1, h.2.1⟩

/-- C1: the dispatch contract of do_action: a non-execute tag fails
invalid-argument with a result independent of the registry; a payload decode
failure fails invalid-argument; lookup takes the first registered tool whose
name equals the request name exactly, a missing match fails NotFound; a
successful execute yields the serialized result as the single reply record;
an error escaping execute becomes an internal-error fault. -/
theorem do_action_dispatch (tools : List ToolImpl) (action : Action) :
    (action.type ≠ "execute" →
        do_action tools action =
          Except.error { code := StatusCode.invalidArgument,
                         message := "Unsupported action type" } ∧
        ∀ tools', do_action tools' action = do_action tools action) ∧
    (action.type = "execute" → action.body.bind ToolParameters.fromJson? = none →
        do_action tools action =
          Except.error { code := StatusCode.invalidArgument,
                         message := payloadDecodeError }) ∧
    (∀ params, action.type = "execute" →
        action.body.bind ToolParameters.fromJson? = some params →
        (tools.find? (fun t => t.name == params.name) = none →
            do_action tools action =
              Except.error { code := StatusCode.notFound, message := "Tool not found" }) ∧
        (∀ tool, tools.find? (fun t => t.name == params.name) = some tool →
            (∃ pre post, tools = pre ++ tool :: post ∧ tool.name = params.name ∧
                ∀ u ∈ pre, u.name ≠ params.name) ∧
            (∀ r, tool.execute params = Except.ok r →
                do_action tools action = Except.ok [{ body := ToolResult.toJson r }]) ∧
            (∀ e, tool.execute params = Except.error e →
                do_action tools action =
                  Except.error { code := StatusCode.internalError, message := e }))) := by
  refine ⟨?_, ?_, ?_⟩
  · intro hne
    exact ⟨by simp [do_action, hne], fun tools' => by simp [do_action, hne]⟩
  · intro heq hdec
    simp [do_action, heq, hdec]
  · intro params heq hdec
    refine ⟨?_, ?_⟩
    · intro hfind
      simp [do_action, heq, hdec, hfind]
    · intro tool hfind
      refine ⟨find?_name_split tools params.name tool hfind, ?_, ?_⟩
      · intro r hr
        simp [do_action, heq, hdec, hfind, hr]
      · intro e he
        simp [do_action, heq, hdec, hfind, he]

/-- C1 witness: a concrete registry; the tag other fails invalid-argument,
and a dispatch for an unregistered name fails NotFound. -/
theorem do_action_dispatch_witness :
    do_action [⟨"file_analyzer", "d", fun _ => Except.ok ⟨true, Json.null, none⟩⟩]
        { type := "other", body := none } =
      Except.error { code := StatusCode.invalidArgument,
                     message := "Unsupported action type" } ∧
    do_action [⟨"file_analyzer", "d", fun _ => Except.ok ⟨true, Json.null, none⟩⟩]
        (clientExecuteAction { name := "nonexistent_tool", args := Json.obj [] }) =
      Except.error { code := StatusCode.notFound, message := "Tool not found" } := by
  constructor
  · exact ((do_action_dispatch
      [⟨"file_analyzer", "d", fun _ => Except.ok ⟨true, Json.null, none⟩⟩]
      { type := "other", body := none }).1 (by decide)).1
  · exact ((do_action_dispatch
      [⟨"file_analyzer", "d", fun _ => Except.ok ⟨true, Json.null, none⟩⟩]
      (clientExecuteAction { name := "nonexistent_tool", args := Json.obj [] })).2.2
      { name := "nonexistent_tool", args := Json.obj [] } rfl rfl).1 rfl

/-- C2: when every scanned block has the JSON form, parse_tool_calls returns
exactly one request per block, in document order, pairing each block with its
JSON reading; a block whose JSON object omits args yields the empty object as
args. -/
theorem parse_tool_calls_wellformed (text : String) (N : Nat)
    (hN : (scanToolBlocks text.data).length = N)
    (hwf : ∀ b ∈ scanToolBlocks text.data, (jsonToolRequest (String.mk b)).isSome = true) :
    (parse_tool_calls text).length = N ∧
    List.Forall₂ (fun b p => jsonToolRequest (String.mk b) = some p)
      (scanToolBlocks text.data) (parse_tool_calls text) ∧
    (∀ b p, jsonToolRequest (String.mk b) = some p →
      (jsonFromStr (String.mk b)).bind (fun j => j.getField "args") = none →
      p.args = Json.obj []) := by
  have key : ∀ bs : List (List Char),
      (∀ b ∈ bs, (jsonToolRequest (String.mk b)).isSome = true) →
      List.Forall₂ (fun b p => jsonToolRequest (String.mk b) = some p) bs
        (bs.filterMap (fun cap => (parse_tool_content (String.mk cap)).toOption)) := by
    intro bs
    induction bs with
    | nil => intro _; exact List.Forall₂.nil
    | cons b rest ih =>
      intro hall
      obtain ⟨p, hp⟩ := Option.isSome_iff_exists.mp (hall b (List.mem_cons_self b rest))
      rw [List.filterMap_cons_some
        (by rw [parse_tool_content_of_request _ _ hp]; rfl)]
      exact List.Forall₂.cons hp (ih fun z hz => hall z (List.mem_cons_of_mem _ hz))
  have hf2 := key _ hwf
  refine ⟨?_, hf2, ?_⟩
  · rw [← hN]
    exact (List.Forall₂.length_eq hf2).symm
  · intro b p hp hargs
    cases hj : jsonFromStr (String.mk b) with
    | none => simp [jsonToolRequest, hj] at hp
    | some j =>
      rw [hj] at hargs
      simp only [Option.some_bind] at hargs
      cases hn : (j.getField "name").bind Json.asStr with
      | none => simp [jsonToolRequest, hj, hn] at hp
      | some nm =>
        simp only [jsonToolRequest, hj, hn, Option.some.injEq] at hp
        rw [← hp]
        simp [hargs]

/-- C2 witness: a text with two well-formed blocks, the first omitting
args. -/
theorem parse_tool_calls_wellformed_witness :
    (parse_tool_calls
        ("A\n```tool\n\x7b\"name\": \"a\"\x7d\n```\nB\n```tool\n\x7b\"name\": \"b\", \"args\": \x7b\"q\": 1\x7d\x7d\n```\nC")).length = 2 :=
  (parse_tool_calls_wellformed
    ("A\n```tool\n\x7b\"name\": \"a\"\x7d\n```\nB\n```tool\n\x7b\"name\": \"b\", \"args\": \x7b\"q\": 1\x7d\x7d\n```\nC")
    2 rfl (by decide)).1

/-- C7: a block whose content lacks the JSON-with-string-name form falls back
to the first colon: the request name is the trimmed prefix, the args are the
JSON decoding of the trimmed remainder when it is valid JSON and the raw
remainder string otherwise; a block with no colon is rejected; and
parse_tool_calls is total, returning exactly the requests of the blocks that
parse while skipping the rest. -/
theorem parse_tool_content_colon_fallback (content : String)
    (hnj : jsonToolRequest content = none) :
    (∀ b a, content.data = b ++ ':' :: a → ':' ∉ b →
        parse_tool_content content = Except.ok
          { name := rustTrim (String.mk b),
            args := (jsonFromStr (rustTrim (String.mk a))).getD
                      (Json.str (rustTrim (String.mk a))) }) ∧
    (':' ∉ content.data → ∃ e, parse_tool_content content = Except.error e) ∧
    (∀ text, parse_tool_calls text =
        (scanToolBlocks text.data).filterMap
          (fun cap => (parse_tool_content (String.mk cap)).toOption)) := by
  refine ⟨?_, ?_, fun text => rfl⟩
  · intro b a hdec hb
    rw [parse_tool_content_of_no_request content hnj]
    unfold colonFallback
    rw [hdec, splitFirst_colon_of_decomp b a hb]
  · intro hno
    rw [parse_tool_content_of_no_request content hnj]
    unfold colonFallback
    rw [splitFirst_colon_none content.data hno]
    exact ⟨_, rfl⟩

/-- C7 witness: both fallback branches at concrete blocks: a non-JSON
argument part kept as an opaque string, and a valid-JSON argument part
decoded. -/
theorem parse_tool_content_colon_fallback_witness :
    parse_tool_content "shell: ls -la" =
      Except.ok { name := "shell", args := Json.str "ls -la" } ∧
    parse_tool_content "run: [1, 2]" =
      Except.ok { name := "run", args := Json.arr [Json.num 1, Json.num 2] } := by
  constructor
  · exact (parse_tool_content_colon_fallback "shell: ls -la" rfl).1
      "shell".data " ls -la".data rfl (by decide)
  · exact (parse_tool_content_colon_fallback "run: [1, 2]" rfl).1
      "run".data " [1, 2]".data rfl (by decide)

/-- C10: a valid-JSON block without a string name field is not dropped when
its source text contains a colon: the colon fallback applies to the raw JSON
source, the request name being the trimmed text before the first colon;
moreover a block is dropped exactly when it matches neither the
JSON-with-string-name form nor contains a colon. -/
theorem json_block_without_name_falls_back (content : String) (j : Json)
    (b a : List Char)
    (hjson : jsonFromStr content = some j)
    (hname : (j.getField "name").bind Json.asStr = none)
    (hsplit : content.data = b ++ ':' :: a)
    (hb : ':' ∉ b) :
    parse_tool_content content = Except.ok
      { name := rustTrim (String.mk b),
        args := (jsonFromStr (rustTrim (String.mk a))).getD
                  (Json.str (rustTrim (String.mk a))) } ∧
    (∀ c : String, (parse_tool_content c).toOption = none ↔
        (jsonToolRequest c = none ∧ ':' ∉ c.data)) := by
  constructor
  · have hnj : jsonToolRequest content = none := by
      simp only [jsonToolRequest, hjson, hname]
    rw [parse_tool_content_of_no_request content hnj]
    unfold colonFallback
    rw [hsplit, splitFirst_colon_of_decomp b a hb]
  · intro c
    constructor
    · intro hnone
      cases hr : jsonToolRequest c with
      | some p =>
        rw [parse_tool_content_of_request c p hr] at hnone
        simp [Except.toOption] at hnone
      | none =>
        refine ⟨rfl, ?_⟩
        rw [parse_tool_content_of_no_request c hr] at hnone
        unfold colonFallback at hnone
        cases hs : splitFirst [':'] c.data with
        | some pr =>
          rw [hs] at hnone
          obtain ⟨b2, a2⟩ := pr
          simp [Except.toOption] at hnone
        | none => exact not_mem_of_splitFirst_colon_none c.data hs
    · rintro ⟨hr, hnc⟩
      rw [parse_tool_content_of_no_request c hr]
      unfold colonFallback
      rw [splitFirst_colon_none c.data hnc]
      rfl

/-- C10 witness: the block content is valid JSON whose name field is the
number 123; the colon fallback applies to the raw JSON text. -/
theorem json_block_without_name_falls_back_witness :
    parse_tool_content "\x7b\"name\": 123\x7d" =
      Except.ok { name := "\x7b\"name\"", args := Json.str "123\x7d" } :=
  (json_block_without_name_falls_back "\x7b\"name\": 123\x7d"
    (Json.obj [("name", Json.num 123)]) "\x7b\"name\"".data " 123\x7d".data
    rfl rfl rfl (by decide)).1

/-- C4: when the assembled response contains tool calls and a tools client is
attached, the calls are executed strictly sequentially in the text order of
their blocks; a failing call is rendered as inline error text appended to the
returned content, and never prevents the remaining calls nor aborts the
turn. -/
theorem tool_calls_run_sequentially
    (exec : ToolParameters → Except String ToolResult) (env : StreamEnv)
    (chunks : List (Except String String))
    (henv : env.chunks = Except.ok chunks)
    (hok : (consumeStream chunks).2 = none)
    (hcalls : (parse_tool_calls (String.join (consumeStream chunks).1)).isEmpty = false) :
    (get_response_stream (some exec) env).toolEvents.map (fun ev => ev.params) =
      parse_tool_calls (String.join (consumeStream chunks).1) ∧
    (get_response_stream (some exec) env).result =
      Except.ok (String.join (consumeStream chunks).1 ++
        (runToolCalls (execute_tool (some exec))
          (parse_tool_calls (String.join (consumeStream chunks).1))).appended) ∧
    (∀ p e,
      ToolEvent.mk p (Except.error e) ∈ (get_response_stream (some exec) env).toolEvents →
      ∃ pre post,
        (String.join (consumeStream chunks).1 ++
          (runToolCalls (execute_tool (some exec))
            (parse_tool_calls (String.join (consumeStream chunks).1))).appended).data =
        pre ++ ("工具 `" ++ p.name ++ "` 执行失败: " ++ e).data ++ post) := by
  have hceq : consumeStream chunks = ((consumeStream chunks).1, none) := by
    rw [← hok]
  have hout : get_response_stream (some exec) env =
      { callbacks := (consumeStream chunks).1 ++
          (runToolCalls (execute_tool (some exec))
            (parse_tool_calls (String.join (consumeStream chunks).1))).callbackFrags,
        toolEvents := (runToolCalls (execute_tool (some exec))
          (parse_tool_calls (String.join (consumeStream chunks).1))).events,
        result := Except.ok (String.join (consumeStream chunks).1 ++
          (runToolCalls (execute_tool (some exec))
            (parse_tool_calls (String.join (consumeStream chunks).1))).appended) } := by
    simp only [get_response_stream, henv]
    rw [hceq]
    simp [hcalls]
  refine ⟨?_, ?_, ?_⟩
  · rw [hout]
    exact runToolCalls_events_params _ _
  · rw [hout]
  · intro p e hmem
    rw [hout] at hmem
    obtain ⟨pre, post, hdec⟩ := runToolCalls_error_appended _ _ p e hmem
    refine ⟨(String.join (consumeStream chunks).1).data ++ pre, post, ?_⟩
    rw [String.data_append, hdec]
    simp [List.append_assoc]

/-- C4 witness: one turn whose single tool call fails; the call is still
executed and the turn does not abort. -/
theorem tool_calls_run_sequentially_witness :
    (get_response_stream (some fun _ => Except.error "boom")
        { chunks := Except.ok [Except.ok "x```tool\n\x7b\"name\": \"t\"\x7d\n```"] }).toolEvents.map
      (fun ev => ev.params) =
      parse_tool_calls
        (String.join (consumeStream [Except.ok "x```tool\n\x7b\"name\": \"t\"\x7d\n```"]).1) :=
  (tool_calls_run_sequentially (fun _ => Except.error "boom")
    { chunks := Except.ok [Except.ok "x```tool\n\x7b\"name\": \"t\"\x7d\n```"] }
    [Except.ok "x```tool\n\x7b\"name\": \"t\"\x7d\n```"] rfl rfl rfl).1

section ScratchChecks

example : jsonFromStr "\x7b\"name\": \"a\", \"args\": \x7b\"x\": 1\x7d\x7d" =
    some (.obj [("name", .str "a"), ("args", .obj [("x", .num 1)])]) := by rfl

example : jsonFromStr " [1, -2.5, true, null, \"a\\n\"] " =
    some (.arr [.num 1, .fnum (-25) (-1), .bool true, .null, .str "a\n"]) := by rfl

example : jsonFromStr "123\x7d" = none := by rfl

example : jsonFromStr "01" = none := by rfl

example :
    scanToolBlocks "x```tool\n\x7b\"name\": \"a\"\x7d\n``` y".data =
      ["\x7b\"name\": \"a\"\x7d".data] := by rfl

example :
    parse_tool_calls "x```tool\n\x7b\"name\": \"a\"\x7d\n``` y" =
      [{ name := "a", args := Json.obj [] }] := by rfl

example :
    parse_tool_content "shell: ls -la" =
      Except.ok { name := "shell", args := Json.str "ls -la" } := by rfl

example :
    parse_tool_content "\x7b\"name\": 123\x7d" =
      Except.ok { name := "\x7b\"name\"", args := Json.str "123\x7d" } := by rfl

example : scanToolBlocks "```tool\n\n```".data = [[]] := by rfl

example :
    format_tool_result "t" { success := false, data := .null, error := none } =
      "工具 `t` 执行失败：\n\n未知错误" := by rfl

end ScratchChecks

end AdAgent
